import Mathlib

/-!
Verification of the JoinFlow semantic response cache and vector-backed
service layer, as specified in the repository's documentation.

The repository ships the cache configuration (`start.bat`, `README_EN.md`),
the service flow diagram (`start.bat`, LLM cache flow), the deployment
health check (`deploy/scripts/health-check.sh`) and the web frontend
(`web/static/js/app.js`); the Python implementation of the cache core
(Cache Manager, Service Manager, In-Memory Fallback Store, Token
Accountant) is not part of the source tree.  The cache core below is
therefore modelled from the specification's words; the frontend storage
round-trip is embedded directly from `web/static/js/app.js`.

Numeric conventions: embeddings are vectors of rationals; the spec fixes
cosine similarity over L2-normalized embeddings, for which cosine
similarity coincides with the dot product, so similarity is the (rational)
dot product.  Timestamps are natural numbers measured in hours, matching
the `ttl_hours` configuration unit.
-/

namespace JoinFlow

/-- Splits a character list into its whitespace-separated words; `acc`
holds the reversed current word. -/
def wordsAux : List Char → List Char → List (List Char)
  | [], acc => if acc.isEmpty then [] else [acc.reverse]
  | c :: cs, acc =>
    if c.isWhitespace then
      if acc.isEmpty then wordsAux cs [] else acc.reverse :: wordsAux cs []
    else wordsAux cs (c :: acc)

/-- Joins words with single spaces. -/
def joinWords : List (List Char) → List Char
  | [] => []
  | [w] => w
  | w :: ws => w ++ ' ' :: joinWords ws

/-- Modelled from the spec: query normalization for the Cache Manager —
"trim, casefold, collapse whitespace" (§4.1).  Lower-cases the characters,
splits on whitespace dropping empty fragments, and rejoins with single
spaces, which trims and collapses in one pass. -/
def normalizeQuery (s : String) : String :=
  String.mk (joinWords (wordsAux (s.data.map Char.toLower) []))

/-- Dot product of two rational vectors (missing tail components count 0). -/
def dotProduct : List ℚ → List ℚ → ℚ
  | a :: as, b :: bs => a * b + dotProduct as bs
  | _, _ => 0

/-- Modelled from the spec: "similarity is cosine similarity over
L2-normalized embeddings" (§4.1); on L2-normalized vectors cosine
similarity equals the dot product. -/
def cosineSim (a b : List ℚ) : ℚ := dotProduct a b

/-- Modelled from the spec: the stable entry identifier, "derived
deterministically from `(model, normalized_query_text)` (a content hash)"
(§3).  The content hash is idealized as the pair itself, which is
deterministic and injective on its inputs. -/
def mkId (model q : String) : String × String := (model, normalizeQuery q)

/-- Modelled from the spec: `CacheEntry`, one cached question/answer pair
(§3). -/
structure CacheEntry where
  id : String × String
  query_text : String
  query_embedding : List ℚ
  response_text : String
  model : String
  prompt_tokens : Nat
  completion_tokens : Nat
  created_at : Nat
  expires_at : Nat
  hit_count : Nat
deriving DecidableEq

/-- Modelled from the spec: `CacheLookupResult` — "either
`Hit{entry, similarity_score}` or `Miss`" (§3). -/
inductive CacheLookupResult where
  | Hit (entry : CacheEntry) (similarity_score : ℚ)
  | Miss
deriving DecidableEq

def CacheLookupResult.isHit : CacheLookupResult → Bool
  | .Hit _ _ => true
  | .Miss => false

/-- Modelled from the spec: the recognized configuration surface (§6). -/
structure CacheConfig where
  similarity_threshold : ℚ
  ttl_hours : Nat
  fallback_capacity : Nat
  collection_name : String
  top_k : Nat

/-- Modelled from the spec: the hit path "return `Hit` and atomically
increment `hit_count`" (§4.1); the entry is "mutated (hit_count increment,
nothing else) on each hit" (§3). -/
def registerHit (e : CacheEntry) : CacheEntry :=
  { e with hit_count := e.hit_count + 1 }

/-- Modelled from the spec: the similarity search is "scoped to the
`(model)` partition" (§4.1): the candidate set of a lookup is the stored
entries whose model matches. -/
def candidates (entries : List CacheEntry) (model : String) : List CacheEntry :=
  entries.filter (fun e => e.model = model)

/-- Modelled from the spec: the tie-break policy — "the highest similarity
wins; if still tied, the most recently created entry wins" (§4.1).
`preferred qe cur cand` keeps `cur` unless `cand` is strictly better. -/
def preferred (qe : List ℚ) (cur cand : CacheEntry) : CacheEntry :=
  if cosineSim qe cur.query_embedding < cosineSim qe cand.query_embedding then cand
  else if cosineSim qe cand.query_embedding = cosineSim qe cur.query_embedding ∧
      cur.created_at < cand.created_at then cand
  else cur

/-- Modelled from the spec: the best match of a top-1 similarity search
over the candidate set, ranked by similarity and then recency (§4.1). -/
def bestMatch (qe : List ℚ) : List CacheEntry → Option CacheEntry
  | [] => none
  | e :: es => some (es.foldl (preferred qe) e)

/-- Modelled from the spec: `lookup(query, model)` (§4.1).  Normalizes the
query (which must be non-empty after normalization), embeds it, runs the
top-1 similarity search over the model partition; if the best match's
similarity is at or above `similarity_threshold` and `expires_at` has not
passed, returns `Hit` and increments the entry's `hit_count`; otherwise
returns `Miss` (an expired best match only schedules best-effort lazy
deletion, which mutates nothing synchronously). -/
def cacheLookup (cfg : CacheConfig) (embed : String → List ℚ)
    (entries : List CacheEntry) (q model : String) (now : Nat) :
    CacheLookupResult × List CacheEntry :=
  let nq := normalizeQuery q
  if nq = "" then (.Miss, entries)
  else
    let qe := embed nq
    match bestMatch qe (candidates entries model) with
    | none => (.Miss, entries)
    | some b =>
      if cfg.similarity_threshold ≤ cosineSim qe b.query_embedding ∧ now < b.expires_at then
        (.Hit (registerHit b) (cosineSim qe b.query_embedding),
         entries.map (fun e => if e = b then registerHit e else e))
      else (.Miss, entries)

/-- Modelled from the spec: the entry built by `store` — "Sets
`created_at = now`, `expires_at = now + ttl_hours`, `hit_count = 0`"
(§4.1), with the embedding computed from the normalized query. -/
def mkEntry (cfg : CacheConfig) (embed : String → List ℚ)
    (q model response : String) (p c now : Nat) : CacheEntry :=
  { id := mkId model q
    query_text := q
    query_embedding := embed (normalizeQuery q)
    response_text := response
    model := model
    prompt_tokens := p
    completion_tokens := c
    created_at := now
    expires_at := now + cfg.ttl_hours
    hit_count := 0 }

/-- Modelled from the spec: the vector-store `upsert(collection, id,
vector, payload)` (§6) — insert-or-replace keyed on the entry id. -/
def vsUpsert (entries : List CacheEntry) (e : CacheEntry) : List CacheEntry :=
  e :: entries.filter (fun x => x.id ≠ e.id)

/-- Modelled from the spec: `store(query, model, response_text,
prompt_tokens, completion_tokens)` — "Computes `id` from `(model,
normalized_query)` ... and upserts (insert-or-replace) rather than
inserts" (§4.1). -/
def cacheStore (cfg : CacheConfig) (embed : String → List ℚ)
    (entries : List CacheEntry) (q model response : String)
    (p c now : Nat) : List CacheEntry :=
  vsUpsert entries (mkEntry cfg embed q model response p c now)

/-- Modelled from the spec: `evictExpired()` — proactively removes entries
where `expires_at < now` and returns the number removed (§4.1). -/
def evictExpired (entries : List CacheEntry) (now : Nat) : List CacheEntry × Nat :=
  ((entries.filter (fun e => ¬ e.expires_at < now)),
   (entries.filter (fun e => e.expires_at < now)).length)

/-- Modelled from the spec: the In-Memory Fallback Store's `upsert` (§4.3)
over a list kept in recency order (most recently used first): replacing an
existing id refreshes its recency; otherwise, "when full, evicts the
least-recently-used entry before inserting a new one" — the last element
of the recency-ordered list. -/
def fbUpsert (cap : Nat) (st : List CacheEntry) (e : CacheEntry) : List CacheEntry :=
  if st.any (fun x => x.id = e.id) then e :: st.filter (fun x => x.id ≠ e.id)
  else if cap ≤ st.length then e :: st.take (st.length - 1)
  else e :: st

/-- Modelled from the spec: the Fallback Store's `search(embedding, model,
topK)` (§4.3) — brute-force cosine similarity over the bounded in-memory
set, returning the top-k scored candidates; it reads and does not mutate
the store. -/
def fbSearch (st : List CacheEntry) (qe : List ℚ) (model : String)
    (topK : Nat) : List (CacheEntry × ℚ) :=
  (((candidates st model).map (fun e => (e, cosineSim qe e.query_embedding))).mergeSort
      (fun a b => b.2 ≤ a.2)).take topK

/-- Modelled from the spec: the Fallback Store's `delete(id)` (§4.3). -/
def fbDelete (st : List CacheEntry) (id : String × String) : List CacheEntry :=
  st.filter (fun x => x.id ≠ id)

/-- Modelled from the spec: `ServiceMode` — enum `{Connected, Degraded}`
owned by the Service Manager (§3, §4.2). -/
inductive ServiceMode where
  | Connected
  | Degraded
deriving DecidableEq

/-- Modelled from the spec: the observable outcomes driving Service
Manager transitions (§4.2): a vector-store operation succeeding or failing
(timeout, connection refused, malformed response all alike), and a
background health-check probe succeeding or failing. -/
inductive SMInput where
  | opSuccess
  | opFailure
  | probeSuccess
  | probeFailure
deriving DecidableEq

/-- Modelled from the spec: the Service Manager transition step (§4.2).
`Connected → Degraded` when any vector-store operation fails, emitting the
observable degradation event (the `Bool`); `Degraded → Connected` when a
health-check probe succeeds; no other outcome changes the mode, and no
other step emits the event. -/
def smStep : ServiceMode → SMInput → ServiceMode × Bool
  | .Connected, .opFailure => (.Degraded, true)
  | .Connected, _ => (.Connected, false)
  | .Degraded, .probeSuccess => (.Connected, false)
  | .Degraded, _ => (.Degraded, false)

/-- Modelled from the spec: a Service Manager execution — the trace of
(mode after step, event emitted at step) along a sequence of observed
outcomes. -/
def smRun (m : ServiceMode) : List SMInput → List (ServiceMode × Bool)
  | [] => []
  | i :: is => smStep m i :: smRun (smStep m i).1 is

/-- Number of degradation events emitted along an execution. -/
def smEmitCount (m : ServiceMode) (l : List SMInput) : Nat :=
  ((smRun m l).filter (fun s => s.2)).length

/-- Number of `Connected → Degraded` transitions along an execution. -/
def smDegradeCount (m : ServiceMode) : List SMInput → Nat
  | [] => 0
  | i :: is =>
    (if m = .Connected ∧ (smStep m i).1 = .Degraded then 1 else 0) +
      smDegradeCount (smStep m i).1 is

/-- Modelled from the spec: the Token Accountant's running counters (§4.4)
— total prompt tokens, total completion tokens, tokens saved, and hit/miss
counts. -/
structure Stats where
  total_prompt_tokens : Nat
  total_completion_tokens : Nat
  tokens_saved : Nat
  hits : Nat
  misses : Nat
deriving DecidableEq

/-- Modelled from the spec: `record(prompt_tokens, completion_tokens,
wasCacheHit)` (§4.4): accumulates the token totals, adds
`prompt_tokens + completion_tokens` to `tokens_saved` on a cache hit
(since a hit avoids the full call), and bumps the hit/miss count. -/
def record (s : Stats) (p c : Nat) (wasCacheHit : Bool) : Stats :=
  { total_prompt_tokens := s.total_prompt_tokens + p
    total_completion_tokens := s.total_completion_tokens + c
    tokens_saved := s.tokens_saved + (if wasCacheHit then p + c else 0)
    hits := s.hits + (if wasCacheHit then 1 else 0)
    misses := s.misses + (if wasCacheHit then 0 else 1) }

/-- Modelled from the spec: `snapshot() -> Stats` "returns an immutable
copy for reporting; no side effects" (§4.4). -/
def snapshot (s : Stats) : Stats := s

/-- Records a sequence of `(prompt_tokens, completion_tokens, wasCacheHit)`
observations in order. -/
def recordAll (s : Stats) (l : List (Nat × Nat × Bool)) : Stats :=
  l.foldl (fun acc r => record acc r.1 r.2.1 r.2.2) s

/-- Modelled from the spec: the error taxonomy's `VectorStoreError`
(§7) — "timeout, connection refused, malformed response" (§4.2). -/
inductive VectorStoreError where
  | timeout
  | connectionRefused
  | malformedResponse
deriving DecidableEq

/-- Modelled from the spec: the fail-open lookup path (§5, §7).  The
vector-store read either returns the durable partition's entries or fails
with a `VectorStoreError`; on failure the Service Manager transitions to
`Degraded` and the lookup is served from the In-Memory Fallback Store —
the error is recovered locally and never propagated (the result type has
no error case). -/
def lookupWithFailover (cfg : CacheConfig) (embed : String → List ℚ)
    (vs : Except VectorStoreError (List CacheEntry))
    (fallback : List CacheEntry) (q model : String) (now : Nat) :
    CacheLookupResult × ServiceMode :=
  match vs with
  | .ok entries => ((cacheLookup cfg embed entries q model now).1, .Connected)
  | .error _ => ((cacheLookup cfg embed fallback q model now).1, .Degraded)

/-- Applies a sequence of lookups `(query, model, now)` to a cache state,
keeping only the evolving entry list. -/
def lookupMany (cfg : CacheConfig) (embed : String → List ℚ)
    (entries : List CacheEntry) (ops : List (String × String × Nat)) :
    List CacheEntry :=
  ops.foldl (fun st op => (cacheLookup cfg embed st op.1 op.2.1 op.2.2).2) entries

/-! ### Frontend task statistics storage (from `web/static/js/app.js`)

`state.totalStats` (app.js:29-33) holds three integer counters, only ever
initialized to 0 and incremented by integer amounts, so its JSON image is
an object of three integer-valued fields; JSON serialization of such
integers is exact.  A JSON object value is embedded as a list of
field-name/integer pairs. -/

/-- The `state.totalStats` counter object of `web/static/js/app.js`
(lines 29-33). -/
structure TotalStats where
  totalTasks : Int
  completedTasks : Int
  totalSteps : Int
deriving DecidableEq

/-- The fresh-session initial value of `state.totalStats`
(app.js:29-33). -/
def freshTotalStats : TotalStats := ⟨0, 0, 0⟩

/-- `JSON.stringify(state.totalStats)` as written to the
`joinflow_stats` localStorage key by `saveTasksToStorage`
(app.js:1725), as the underlying JSON object. -/
def stringifyStats (s : TotalStats) : List (String × Int) :=
  [("totalTasks", s.totalTasks), ("completedTasks", s.completedTasks),
   ("totalSteps", s.totalSteps)]

/-- `Object.assign(state.totalStats, parsed)` (app.js:1770): each field of
the parsed object overwrites the corresponding field of the target;
unknown fields of a `TotalStats` target are dropped. -/
def objectAssignStats (target : TotalStats) (src : List (String × Int)) : TotalStats :=
  src.foldl
    (fun t kv =>
      if kv.1 = "totalTasks" then { t with totalTasks := kv.2 }
      else if kv.1 = "completedTasks" then { t with completedTasks := kv.2 }
      else if kv.1 = "totalSteps" then { t with totalSteps := kv.2 }
      else t)
    target

/-- The stats branch of `loadTasksFromStorage` (app.js:1756,1769-1771) in
a session without a `TaskStore`: reads the `joinflow_stats` key; when it
is present, `Object.assign`s the parsed object onto the current
`state.totalStats`; when absent, leaves the current value. -/
def loadStats (stored : Option (List (String × Int))) (current : TotalStats) : TotalStats :=
  match stored with
  | none => current
  | some j => objectAssignStats current j

/-! ### Ranking order and concrete fixtures -/

/-- The tie-break ranking: `b` ranks at least as high as `a` for query
embedding `qe` — `b` has similarity at least `a`'s, and at equal
similarity `b` is at least as recently created. -/
def rankLe (qe : List ℚ) (a b : CacheEntry) : Prop :=
  cosineSim qe a.query_embedding ≤ cosineSim qe b.query_embedding ∧
    (cosineSim qe a.query_embedding = cosineSim qe b.query_embedding →
      a.created_at ≤ b.created_at)

/-- A concrete configuration for evaluating the model on closed inputs:
the threshold is placed exactly at the similarity the concrete embedding
yields, so boundary behavior is exercised. -/
def cfgW : CacheConfig := ⟨0, 24, 2, "llm_cache", 1⟩

/-- A concrete embedding provider for closed evaluations. -/
def embedW : String → List ℚ := fun _ => []

/-- A concrete cache entry fixture: model `gpt-x`, response `Paris`,
creation time `created`, expiry 24. -/
def entryW (name : String) (created : Nat) : CacheEntry :=
  ⟨("gpt-x", name), name, [], "Paris", "gpt-x", 10, 2, created, 24, 0⟩

/-! ### Helper lemmas: ranking and the best match -/

theorem rankLe_refl (qe : List ℚ) (a : CacheEntry) : rankLe qe a a :=
  ⟨le_refl _, fun _ => le_refl _⟩

theorem rankLe_trans {qe : List ℚ} {a b c : CacheEntry}
    (h1 : rankLe qe a b) (h2 : rankLe qe b c) : rankLe qe a c := by
  refine ⟨le_trans h1.1 h2.1, fun hac => ?_⟩
  have hab : cosineSim qe a.query_embedding = cosineSim qe b.query_embedding :=
    le_antisymm h1.1 (hac ▸ h2.1)
  have hbc : cosineSim qe b.query_embedding = cosineSim qe c.query_embedding :=
    hab ▸ hac
  exact le_trans (h1.2 hab) (h2.2 hbc)

theorem preferred_eq_or (qe : List ℚ) (cur cand : CacheEntry) :
    preferred qe cur cand = cur ∨ preferred qe cur cand = cand := by
  unfold preferred
  split
  · exact Or.inr rfl
  · split
    · exact Or.inr rfl
    · exact Or.inl rfl

theorem rankLe_left_preferred (qe : List ℚ) (cur cand : CacheEntry) :
    rankLe qe cur (preferred qe cur cand) := by
  unfold preferred
  split
  · rename_i h
    exact ⟨le_of_lt h, fun he => absurd he (ne_of_lt h)⟩
  · split
    · rename_i h2
      exact ⟨le_of_eq h2.1.symm, fun _ => le_of_lt h2.2⟩
    · exact rankLe_refl qe cur

theorem rankLe_right_preferred (qe : List ℚ) (cur cand : CacheEntry) :
    rankLe qe cand (preferred qe cur cand) := by
  unfold preferred
  split
  · exact rankLe_refl qe cand
  · split
    · exact rankLe_refl qe cand
    · rename_i h1 h2
      refine ⟨not_lt.mp h1, fun he => ?_⟩
      exact not_lt.mp (fun hlt => h2 ⟨he, hlt⟩)

theorem foldl_preferred_rank (qe : List ℚ) :
    ∀ (l : List CacheEntry) (cur : CacheEntry),
      rankLe qe cur (l.foldl (preferred qe) cur) ∧
        ∀ c ∈ l, rankLe qe c (l.foldl (preferred qe) cur)
  | [], cur => ⟨rankLe_refl qe cur, fun c hc => absurd hc (List.not_mem_nil c)⟩
  | e :: es, cur => by
    have ih := foldl_preferred_rank qe es (preferred qe cur e)
    simp only [List.foldl]
    refine ⟨rankLe_trans (rankLe_left_preferred qe cur e) ih.1, ?_⟩
    intro c hc
    rcases List.mem_cons.mp hc with rfl | hmem
    · exact rankLe_trans (rankLe_right_preferred qe cur c) ih.1
    · exact ih.2 c hmem

theorem foldl_preferred_mem (qe : List ℚ) :
    ∀ (l : List CacheEntry) (cur : CacheEntry),
      l.foldl (preferred qe) cur ∈ cur :: l
  | [], cur => by simp [List.foldl]
  | e :: es, cur => by
    simp only [List.foldl]
    have ih := foldl_preferred_mem qe es (preferred qe cur e)
    rcases List.mem_cons.mp ih with h | h
    · rcases preferred_eq_or qe cur e with h2 | h2
      · rw [h, h2]
        exact List.mem_cons_self _ _
      · rw [h, h2]
        exact List.mem_cons_of_mem _ (List.mem_cons_self _ _)
    · exact List.mem_cons_of_mem _ (List.mem_cons_of_mem _ h)

theorem bestMatch_mem {qe : List ℚ} {l : List CacheEntry} {b : CacheEntry}
    (h : bestMatch qe l = some b) : b ∈ l := by
  cases l with
  | nil => exact absurd h (by simp [bestMatch])
  | cons e es =>
    have hb : es.foldl (preferred qe) e = b := by
      have := h
      simp only [bestMatch, Option.some.injEq] at this
      exact this
    exact hb ▸ foldl_preferred_mem qe es e

theorem bestMatch_rank {qe : List ℚ} {l : List CacheEntry} {b : CacheEntry}
    (h : bestMatch qe l = some b) : ∀ c ∈ l, rankLe qe c b := by
  cases l with
  | nil => exact fun c hc => absurd hc (List.not_mem_nil c)
  | cons e es =>
    have hb : es.foldl (preferred qe) e = b := by
      simp only [bestMatch, Option.some.injEq] at h
      exact h
    intro c hc
    rcases List.mem_cons.mp hc with rfl | hmem
    · exact hb ▸ (foldl_preferred_rank qe es c).1
    · exact hb ▸ (foldl_preferred_rank qe es e).2 c hmem

/-- Anatomy of a hit: a `Hit` result of `cacheLookup` always comes from
the best match of the model partition, carries its similarity as the
score, meets the threshold, and is unexpired at lookup time. -/
theorem cacheLookup_hit_form {cfg : CacheConfig} {embed : String → List ℚ}
    {entries : List CacheEntry} {q model : String} {now : Nat}
    {e : CacheEntry} {s : ℚ}
    (h : (cacheLookup cfg embed entries q model now).1 = .Hit e s) :
    ∃ b, bestMatch (embed (normalizeQuery q)) (candidates entries model) = some b ∧
      e = registerHit b ∧
      s = cosineSim (embed (normalizeQuery q)) b.query_embedding ∧
      cfg.similarity_threshold ≤ s ∧ now < b.expires_at := by
  simp only [cacheLookup] at h
  split at h
  · exact absurd h (by simp)
  · split at h
    · exact absurd h (by simp)
    · rename_i hq b hb
      split at h
      · rename_i hcond
        have hinj : CacheLookupResult.Hit (registerHit b)
            (cosineSim (embed (normalizeQuery q)) b.query_embedding) =
            CacheLookupResult.Hit e s := h
        injection hinj with he hs
        exact ⟨b, hb, he.symm, hs.symm, hs ▸ hcond.1, hcond.2⟩
      · exact absurd h (by simp)

/-- A `Miss` result leaves the cache state untouched. -/
theorem cacheLookup_state_frame (cfg : CacheConfig) (embed : String → List ℚ)
    (entries : List CacheEntry) (q model : String) (now : Nat) :
    List.Forall₂ (fun a b => b = a ∨ b = registerHit a) entries
      (cacheLookup cfg embed entries q model now).2 := by
  have hself : ∀ (l : List CacheEntry),
      List.Forall₂ (fun a b : CacheEntry => b = a ∨ b = registerHit a) l l := by
    intro l
    induction l with
    | nil => exact List.Forall₂.nil
    | cons a as ih => exact List.Forall₂.cons (Or.inl rfl) ih
  have hmap : ∀ (l : List CacheEntry) (b : CacheEntry),
      List.Forall₂ (fun a b' : CacheEntry => b' = a ∨ b' = registerHit a) l
        (l.map (fun e => if e = b then registerHit e else e)) := by
    intro l b
    induction l with
    | nil => exact List.Forall₂.nil
    | cons a as ih =>
      refine List.Forall₂.cons ?_ ih
      show (if a = b then registerHit a else a) = a ∨
        (if a = b then registerHit a else a) = registerHit a
      by_cases hab : a = b
      · rw [if_pos hab]
        exact Or.inr rfl
      · rw [if_neg hab]
        exact Or.inl rfl
  simp only [cacheLookup]
  split
  · exact hself entries
  · split
    · exact hself entries
    · rename_i hq b hb
      split
      · exact hmap entries b
      · exact hself entries

/-- Composing entrywise relations along two `Forall₂` chains. -/
theorem forall₂_trans_of {α : Type} {R : α → α → Prop}
    (htrans : ∀ a b c, R a b → R b c → R a c) :
    ∀ {l1 l2 l3 : List α}, List.Forall₂ R l1 l2 → List.Forall₂ R l2 l3 →
      List.Forall₂ R l1 l3 := by
  intro l1 l2 l3 h12 h23
  induction h12 generalizing l3 with
  | nil =>
    cases h23
    exact List.Forall₂.nil
  | cons hab h ih =>
    cases h23 with
    | cons hbc h' => exact List.Forall₂.cons (htrans _ _ _ hab hbc) (ih h')

/-! ### Claim theorems -/

/-- C1: `lookup` returns `Hit` exactly when the best matching entry of the
model partition has cosine similarity at or above `similarity_threshold`
(comparison with `≥`, so the boundary case where similarity equals the
threshold hits) and that entry is unexpired at lookup time; otherwise it
returns `Miss`. -/
theorem cache_threshold_hit_iff (cfg : CacheConfig) (embed : String → List ℚ)
    (entries : List CacheEntry) (q model : String) (now : Nat)
    (hq : normalizeQuery q ≠ "") :
    (cacheLookup cfg embed entries q model now).1.isHit = true ↔
      ∃ b, bestMatch (embed (normalizeQuery q)) (candidates entries model) = some b ∧
        cfg.similarity_threshold ≤ cosineSim (embed (normalizeQuery q)) b.query_embedding ∧
        now < b.expires_at := by
  constructor
  · intro h
    cases hr : (cacheLookup cfg embed entries q model now).1 with
    | Miss =>
      rw [hr] at h
      exact absurd h (by simp [CacheLookupResult.isHit])
    | Hit e s =>
      obtain ⟨b, hb, _, hs, hthr, hexp⟩ := cacheLookup_hit_form hr
      exact ⟨b, hb, hs ▸ hthr, hexp⟩
  · rintro ⟨b, hb, hthr, hexp⟩
    simp only [cacheLookup, if_neg hq, hb]
    rw [if_pos ⟨hthr, hexp⟩]
    rfl

/-- C1 witness: on a concrete store whose similarity equals the threshold
exactly, the boundary lookup hits and the characterization holds. -/
theorem cache_threshold_hit_iff_witness :
    normalizeQuery "q" ≠ "" ∧
    ((cacheLookup cfgW embedW [entryW "q" 0] "q" "gpt-x" 0).1.isHit = true ↔
      ∃ b, bestMatch (embedW (normalizeQuery "q")) (candidates [entryW "q" 0] "gpt-x") = some b ∧
        cfgW.similarity_threshold ≤
          cosineSim (embedW (normalizeQuery "q")) b.query_embedding ∧
        0 < b.expires_at) :=
  ⟨by decide, cache_threshold_hit_iff cfgW embedW [entryW "q" 0] "q" "gpt-x" 0 (by decide)⟩

/-- C2: an entry created by `store` at `t0` carries
`expires_at = t0 + ttl_hours`, and a lookup at any time
`t ≥ t0 + ttl_hours` never returns that entry as a `Hit`, whatever the
cache state contains — expiry is checked on the entry itself at lookup
time, so this holds even if no `evictExpired` sweep ever ran. -/
theorem cache_ttl_expiry (cfg : CacheConfig) (embed : String → List ℚ)
    (entries : List CacheEntry) (q model response q2 m2 : String)
    (p c t0 t : Nat) (s : ℚ)
    (ht : t0 + cfg.ttl_hours ≤ t) :
    (mkEntry cfg embed q model response p c t0).created_at = t0 ∧
    (mkEntry cfg embed q model response p c t0).expires_at = t0 + cfg.ttl_hours ∧
    (cacheLookup cfg embed entries q2 m2 t).1 ≠
      CacheLookupResult.Hit (registerHit (mkEntry cfg embed q model response p c t0)) s := by
  refine ⟨rfl, rfl, fun h => ?_⟩
  obtain ⟨b, _, he, _, _, hexp⟩ := cacheLookup_hit_form h
  have hexpeq : (t0 + cfg.ttl_hours : Nat) = b.expires_at :=
    congrArg CacheEntry.expires_at he
  rw [← hexpeq] at hexp
  exact absurd hexp (not_lt.mpr ht)

/-- C2 witness: a concrete entry created at time 0 with TTL 24 is never a
hit for a lookup at time 24. -/
theorem cache_ttl_expiry_witness :
    0 + cfgW.ttl_hours ≤ 24 ∧
    ((mkEntry cfgW embedW "q" "gpt-x" "Paris" 10 2 0).created_at = 0 ∧
     (mkEntry cfgW embedW "q" "gpt-x" "Paris" 10 2 0).expires_at = 0 + cfgW.ttl_hours ∧
     (cacheLookup cfgW embedW [] "q" "gpt-x" 24).1 ≠
       CacheLookupResult.Hit
         (registerHit (mkEntry cfgW embedW "q" "gpt-x" "Paris" 10 2 0)) 0) :=
  ⟨by decide,
   cache_ttl_expiry cfgW embedW [] "q" "gpt-x" "Paris" "q" "gpt-x" 10 2 0 24 0 (by decide)⟩

/-- C3: when the Vector Store Client fails on a call, the failover lookup
recovers locally: it transitions to `Degraded` and returns exactly the
Fallback-Store-backed result, which is either `Miss` or a `Hit` served
from a fallback entry; the vector-store error never reaches the caller
(the result type carries no error case, and the lookup is a total
function). -/
theorem degraded_fail_open (cfg : CacheConfig) (embed : String → List ℚ)
    (err : VectorStoreError) (fallback : List CacheEntry)
    (q model : String) (now : Nat) :
    lookupWithFailover cfg embed (Except.error err) fallback q model now =
      ((cacheLookup cfg embed fallback q model now).1, ServiceMode.Degraded) ∧
    ((cacheLookup cfg embed fallback q model now).1 = CacheLookupResult.Miss ∨
      ∃ b s, b ∈ fallback ∧
        (cacheLookup cfg embed fallback q model now).1 =
          CacheLookupResult.Hit (registerHit b) s) := by
  refine ⟨rfl, ?_⟩
  cases hr : (cacheLookup cfg embed fallback q model now).1 with
  | Miss => exact Or.inl rfl
  | Hit e s =>
    obtain ⟨b, hb, he, _, _, _⟩ := cacheLookup_hit_form hr
    exact Or.inr ⟨b, s, (List.mem_filter.mp (bestMatch_mem hb)).1, by rw [he]⟩

theorem filter_id_of_filter_ne (l : List CacheEntry) (k : String × String) :
    ((l.filter (fun x => x.id ≠ k)).filter (fun x => x.id = k)) = [] := by
  induction l with
  | nil => rfl
  | cons e es ih =>
    by_cases h : e.id = k
    · simp [List.filter_cons, h, ih]
    · simp [List.filter_cons, h, ih]

theorem vsUpsert_filter_id (l : List CacheEntry) (e : CacheEntry) :
    (vsUpsert l e).filter (fun x => x.id = e.id) = [e] := by
  simp [vsUpsert, List.filter_cons, filter_id_of_filter_ne]

theorem vsUpsert_find_id (l : List CacheEntry) (e : CacheEntry) :
    (vsUpsert l e).find? (fun x => x.id = e.id) = some e := by
  simp [vsUpsert, List.find?_cons]

/-- C4: `store` is idempotent — both calls derive the same deterministic
id from `(model, normalized_query)`, the second call upserts
(insert-or-replace), so after storing the same arguments twice exactly one
logical entry carries that id, and its `hit_count` after the second store
equals its value after the first store. -/
theorem store_idempotent (cfg : CacheConfig) (embed : String → List ℚ)
    (entries : List CacheEntry) (q model response : String) (p c t1 t2 : Nat) :
    (mkEntry cfg embed q model response p c t1).id = mkId model q ∧
    (mkEntry cfg embed q model response p c t2).id = mkId model q ∧
    ((cacheStore cfg embed (cacheStore cfg embed entries q model response p c t1)
        q model response p c t2).filter (fun e => e.id = mkId model q)).length = 1 ∧
    ((cacheStore cfg embed (cacheStore cfg embed entries q model response p c t1)
        q model response p c t2).find? (fun e => e.id = mkId model q)).map
        CacheEntry.hit_count =
      ((cacheStore cfg embed entries q model response p c t1).find?
        (fun e => e.id = mkId model q)).map CacheEntry.hit_count := by
  refine ⟨rfl, rfl, ?_, ?_⟩
  · exact congrArg List.length
      (vsUpsert_filter_id (cacheStore cfg embed entries q model response p c t1)
        (mkEntry cfg embed q model response p c t2))
  · exact (congrArg (Option.map CacheEntry.hit_count)
        (vsUpsert_find_id (cacheStore cfg embed entries q model response p c t1)
          (mkEntry cfg embed q model response p c t2))).trans
      (congrArg (Option.map CacheEntry.hit_count)
        (vsUpsert_find_id entries (mkEntry cfg embed q model response p c t1))).symm

/-- C5: after recording `n` cache hits with known token counts, the
`tokens_saved` counter equals exactly the sum of
`prompt_tokens + completion_tokens` over those hits, and `snapshot` has no
side effect on the counters. -/
theorem token_accounting (s0 : Stats) (l : List (Nat × Nat)) :
    (recordAll s0 (l.map (fun pc => (pc.1, pc.2, true)))).tokens_saved =
      s0.tokens_saved + (l.map (fun pc => pc.1 + pc.2)).sum ∧
    ∀ s : Stats, snapshot s = s := by
  refine ⟨?_, fun s => rfl⟩
  induction l generalizing s0 with
  | nil => simp [recordAll]
  | cons pc ps ih =>
    have hstep : recordAll s0 ((pc :: ps).map (fun r => (r.1, r.2, true))) =
        recordAll (record s0 pc.1 pc.2 true) (ps.map (fun r => (r.1, r.2, true))) := rfl
    rw [hstep, ih (record s0 pc.1 pc.2 true)]
    simp [record]
    omega

/-- C6: in every Service Manager execution, the number of emitted
degradation events equals the number of `Connected → Degraded`
transitions (exactly once per transition); no step taken from the
`Degraded` mode emits the event (no repeated alarms while degraded); and
any step that changes the mode is an explicit operation failure or
health-check success — never a silent change. -/
theorem degradation_event_exactly_once (m : ServiceMode) (l : List SMInput) :
    smEmitCount m l = smDegradeCount m l ∧
    (∀ i, (smStep ServiceMode.Degraded i).2 = false) ∧
    (∀ (m' : ServiceMode) (i : SMInput),
      (smStep m' i).1 = m' ∨ i = SMInput.opFailure ∨ i = SMInput.probeSuccess) := by
  refine ⟨?_, ?_, ?_⟩
  · induction l generalizing m with
    | nil => rfl
    | cons i is ih =>
      have hstep : smEmitCount m (i :: is) =
          (if (smStep m i).2 then 1 else 0) + smEmitCount (smStep m i).1 is := by
        simp only [smEmitCount, smRun, List.filter_cons]
        cases hcase : (smStep m i).2 <;> simp [hcase, Nat.add_comm]
      rw [hstep, ih]
      cases m <;> cases i <;> simp [smStep, smDegradeCount]
  · intro i
    cases i <;> rfl
  · intro m' i
    cases m' <;> cases i <;> simp [smStep]

/-- C7: a served hit changes only `hit_count`, incrementing it by exactly
one while every other field is unchanged; each entry of the post-lookup
state is either untouched or hit-incremented; and along any sequence of
lookups no entry's `hit_count` ever decreases. -/
theorem hit_count_frame (cfg : CacheConfig) (embed : String → List ℚ)
    (entries : List CacheEntry) (q model : String) (now : Nat)
    (ops : List (String × String × Nat)) (e : CacheEntry) :
    (registerHit e).hit_count = e.hit_count + 1 ∧
    (registerHit e).id = e.id ∧
    (registerHit e).query_text = e.query_text ∧
    (registerHit e).query_embedding = e.query_embedding ∧
    (registerHit e).response_text = e.response_text ∧
    (registerHit e).model = e.model ∧
    (registerHit e).prompt_tokens = e.prompt_tokens ∧
    (registerHit e).completion_tokens = e.completion_tokens ∧
    (registerHit e).created_at = e.created_at ∧
    (registerHit e).expires_at = e.expires_at ∧
    List.Forall₂ (fun a b => b = a ∨ b = registerHit a) entries
      (cacheLookup cfg embed entries q model now).2 ∧
    List.Forall₂ (fun a b => a.hit_count ≤ b.hit_count) entries
      (lookupMany cfg embed entries ops) := by
  refine ⟨rfl, rfl, rfl, rfl, rfl, rfl, rfl, rfl, rfl, rfl,
    cacheLookup_state_frame cfg embed entries q model now, ?_⟩
  induction ops generalizing entries with
  | nil =>
    have hrefl : ∀ l : List CacheEntry,
        List.Forall₂ (fun a b : CacheEntry => a.hit_count ≤ b.hit_count) l l := by
      intro l
      induction l with
      | nil => exact List.Forall₂.nil
      | cons a as ih2 => exact List.Forall₂.cons (le_refl _) ih2
    exact hrefl entries
  | cons op ops ih =>
    have h1 : List.Forall₂ (fun a b : CacheEntry => a.hit_count ≤ b.hit_count) entries
        (cacheLookup cfg embed entries op.1 op.2.1 op.2.2).2 :=
      (cacheLookup_state_frame cfg embed entries op.1 op.2.1 op.2.2).imp
        (fun a b hab => by
          rcases hab with rfl | rfl
          · exact le_refl _
          · exact Nat.le_succ _)
    exact forall₂_trans_of (R := fun a b : CacheEntry => a.hit_count ≤ b.hit_count)
      (fun a b c hab hbc => le_trans hab hbc) h1
      (ih ((cacheLookup cfg embed entries op.1 op.2.1 op.2.2).2))

/-- C8: the In-Memory Fallback Store never exceeds its capacity bound:
`upsert` on a full store first evicts exactly the least-recently-used
entry (the last of the recency-ordered list) before inserting, `delete`
only shrinks, and `search` does not mutate the store at all, so the size
bound is an invariant of every operation. -/
theorem fallback_capacity_invariant (cap : Nat) (st : List CacheEntry)
    (e : CacheEntry) (k : String × String)
    (hcap : 1 ≤ cap) (hlen : st.length ≤ cap) :
    (fbUpsert cap st e).length ≤ cap ∧
    (fbDelete st k).length ≤ cap ∧
    (st.length = cap → st.any (fun x => x.id = e.id) = false →
      fbUpsert cap st e = e :: st.dropLast) := by
  refine ⟨?_, le_trans (List.length_filter_le _ _) hlen, ?_⟩
  · unfold fbUpsert
    split
    · rename_i hany
      have hex : ∃ x ∈ st, x.id = e.id := by simpa using hany
      have hlt : (st.filter (fun x => x.id ≠ e.id)).length < st.length := by
        obtain ⟨x, hx, hxid⟩ := hex
        exact List.length_filter_lt_length_iff_exists.mpr ⟨x, hx, by simp [hxid]⟩
      simp only [List.length_cons]
      omega
    · split
      · simp only [List.length_cons, List.length_take]
        omega
      · rename_i hnotfull
        simp only [List.length_cons]
        omega
  · intro hlen2 hany
    unfold fbUpsert
    rw [if_neg (by simp [hany]), if_pos (le_of_eq hlen2.symm)]
    congr 1
    rw [List.dropLast_eq_take]

/-- C8 witness: a concrete full store of capacity 2 evicts its
least-recently-used entry on upsert and stays within bound. -/
theorem fallback_capacity_invariant_witness :
    (1 ≤ 2 ∧ [entryW "a" 0, entryW "b" 0].length ≤ 2) ∧
    ((fbUpsert 2 [entryW "a" 0, entryW "b" 0] (entryW "c" 0)).length ≤ 2 ∧
     (fbDelete [entryW "a" 0, entryW "b" 0] ("gpt-x", "a")).length ≤ 2 ∧
     ([entryW "a" 0, entryW "b" 0].length = 2 →
       [entryW "a" 0, entryW "b" 0].any
         (fun x => x.id = (entryW "c" 0).id) = false →
       fbUpsert 2 [entryW "a" 0, entryW "b" 0] (entryW "c" 0) =
         entryW "c" 0 :: [entryW "a" 0, entryW "b" 0].dropLast)) :=
  ⟨⟨by decide, by decide⟩,
   fallback_capacity_invariant 2 [entryW "a" 0, entryW "b" 0] (entryW "c" 0)
     ("gpt-x", "a") (by decide) (by decide)⟩

/-- C9: a `Hit` is served from the candidate with the highest similarity
among the model partition; among candidates tying at that similarity, the
entry with the most recent `created_at` is the one returned. -/
theorem tie_break_highest_then_most_recent (cfg : CacheConfig)
    (embed : String → List ℚ) (entries : List CacheEntry)
    (q model : String) (now : Nat) (e : CacheEntry) (s : ℚ)
    (h : (cacheLookup cfg embed entries q model now).1 = CacheLookupResult.Hit e s) :
    ∃ b, b ∈ candidates entries model ∧ e = registerHit b ∧
      s = cosineSim (embed (normalizeQuery q)) b.query_embedding ∧
      ∀ c ∈ candidates entries model,
        cosineSim (embed (normalizeQuery q)) c.query_embedding ≤
          cosineSim (embed (normalizeQuery q)) b.query_embedding ∧
        (cosineSim (embed (normalizeQuery q)) c.query_embedding =
            cosineSim (embed (normalizeQuery q)) b.query_embedding →
          c.created_at ≤ b.created_at) := by
  obtain ⟨b, hb, he, hs, _, _⟩ := cacheLookup_hit_form h
  exact ⟨b, bestMatch_mem hb, he, hs, fun c hc => bestMatch_rank hb c hc⟩

/-- C9 witness: with two candidates tying at the same similarity, the
lookup returns the more recently created one, and the returned entry
dominates every candidate in similarity and recency. -/
theorem tie_break_highest_then_most_recent_witness :
    ((cacheLookup cfgW embedW [entryW "c1" 3, entryW "c2" 7] "q" "gpt-x" 0).1 =
      CacheLookupResult.Hit (registerHit (entryW "c2" 7)) 0) ∧
    (∃ b, b ∈ candidates [entryW "c1" 3, entryW "c2" 7] "gpt-x" ∧
      registerHit (entryW "c2" 7) = registerHit b ∧
      (0 : ℚ) = cosineSim (embedW (normalizeQuery "q")) b.query_embedding ∧
      ∀ c ∈ candidates [entryW "c1" 3, entryW "c2" 7] "gpt-x",
        cosineSim (embedW (normalizeQuery "q")) c.query_embedding ≤
          cosineSim (embedW (normalizeQuery "q")) b.query_embedding ∧
        (cosineSim (embedW (normalizeQuery "q")) c.query_embedding =
            cosineSim (embedW (normalizeQuery "q")) b.query_embedding →
          c.created_at ≤ b.created_at)) :=
  ⟨by decide,
   tie_break_highest_then_most_recent cfgW embedW [entryW "c1" 3, entryW "c2" 7]
     "q" "gpt-x" 0 (registerHit (entryW "c2" 7)) 0 (by decide)⟩

/-- C10: the frontend `totalStats` counters round-trip through the
`joinflow_stats` localStorage key: in a fresh session without a TaskStore,
`loadTasksFromStorage` restores exactly the counters that
`saveTasksToStorage` serialized. -/
theorem stats_storage_roundtrip (s : TotalStats) :
    loadStats (some (stringifyStats s)) freshTotalStats = s := rfl

end JoinFlow
